import Mathlib

/-!
# vaultify: the secret-capturing template renderer

A shallow embedding of `pkg/template/template.go` and of `logLevel` from
`cmd/vaultify/vaultify.go`.

* Go maps (`map[string]T`) are functions `String → Option T`; the map
  of command-line overrides, which the code iterates, is an association list
  whose order stands for the iteration order Go happens to pick.
* The Secret Reader is an interface in the source; here it is a record of its
  two methods over an explicit reader state, so that a reader may answer the
  same name differently on successive calls.
* `text/template` is a library: a parsed template is represented by the tree of
  its interactions with the renderer (text written to the sink, calls of the
  `vault` function), and the parser is a parameter.
* The file system and the standard output are an explicit `World`.
* Every call that a property talks about (`Get`, `secrets.Write`,
  `vault.NewClient`, writes to the sink) is logged in a list of `Event`s.
-/

set_option linter.dupNamespace false

namespace Vaultify

/-! ## Data model -/

/-- Go `error` values that the renderer produces or passes on. -/
inductive Error where
  /-- The error of `getVaultSecret`: "you need to pass a name to the vault function". -/
  | missingName
  /-- the static reader has no entry for the name -/
  | notFound (name : String)
  /-- a file could not be read, created or written -/
  | file (path : String)
  /-- The error with which `text/template` reports a failing function call
  (`error calling vault: ...`); it carries the error the function returned. -/
  | call (fn : String) (cause : Error)
  /-- any other error (parser, JSON decoder, vault client, ...) -/
  | other (msg : String)
deriving DecidableEq, Repr

/-- Modelled from the spec: `secrets.Secret` (package `pkg/secrets` is not under
src/), "a single fetched value plus optional lease identifier and lease
duration". The type of values is the parameter `V` (`secrets.Value`). -/
structure Secret (V : Type) where
  value : V
  leaseID : String
  leaseDuration : Nat
deriving DecidableEq, Repr

/-- Modelled from the spec: `secrets.Secrets`, the record of one render; the two
fields are the ones `render` fills in. -/
structure Secrets (V : Type) where
  AuthSecret : Secret V
  Secrets : String → Option (Secret V)

/-- Assignment `m[k] = v` on a Go map. -/
def mapSet {β : Type} (m : String → Option β) (k : String) (v : β) : String → Option β :=
  fun k' => if k' = k then some v else m k'

/-- The empty Go map `map[string]T{}`. -/
def mapEmpty {β : Type} : String → Option β := fun _ => none

/-- The calls that the properties talk about, in the order they happen. -/
inductive Event (V : Type) where
  /-- the template evaluator called the `vault` function with this name -/
  | lookup (name : String)
  /-- the call `secretReader.Get(name)` happened and returned `res` -/
  | get (name : String) (res : Except Error (Secret V))
  /-- the evaluator wrote `text` to the output sink -/
  | write (text : String)
  /-- the call `vault.NewClient(...)` happened -/
  | newClient
  /-- the call `secrets.Write(path, record)` happened -/
  | secretsWrite (path : String) (record : Secrets V)

/-- The interface `secrets.SecretReader`, over a reader state `σ`. -/
structure SecretReader (σ V : Type) where
  Get : String → σ → Except Error (Secret V) × σ
  GetAuthSecret : σ → Secret V

/-- An `io.Writer`: the bytes written so far and whether writing succeeds. -/
structure Sink where
  data : String
  ok : Bool
deriving DecidableEq, Repr

/-- A parsed template, as `Execute` runs it: it stops, fails on its own, writes
text to the sink, or calls `vault` and goes on with the secret it got back. -/
inductive Exec (V : Type) where
  | done : Exec V
  | fail (e : Error) : Exec V
  | write (text : String) (k : Exec V) : Exec V
  | vault (name : String) (k : Secret V → Exec V) : Exec V

/-! ## The renderer -/

/-- The method `VaultifyTemplate.getVaultSecret`. Returns the result, the reader state and
the events of the call. -/
def getVaultSecret {σ V : Type} (r : SecretReader σ V) (name : String) (rs : σ) :
    Except Error (Secret V) × σ × List (Event V) :=
  if name = "" then
    (.error .missingName, rs, [])
  else
    let res := r.Get name rs
    (res.1, res.2, [Event.get name res.1])

/-- The state that `Execute` works on inside `render`. -/
structure ExecState (σ V : Type) where
  reader : σ
  secrets : String → Option (Secret V)
  out : Sink
  events : List (Event V)

/-- The closure `funcMap["vault"]` of `render`. -/
def vaultFunc {σ V : Type} (r : SecretReader σ V) (name : String) (st : ExecState σ V) :
    Except Error (Secret V) × ExecState σ V :=
  let g := getVaultSecret r name st.reader
  let st1 : ExecState σ V :=
    { st with reader := g.2.1, events := st.events ++ [Event.lookup name] ++ g.2.2 }
  match g.1 with
  | .error e => (.error e, st1)
  | .ok secret => (.ok secret, { st1 with secrets := mapSet st1.secrets name secret })

/-- The method `tmpl.Execute(output, nil)` on a parsed template. -/
def execute {σ V : Type} (r : SecretReader σ V) :
    Exec V → ExecState σ V → Option Error × ExecState σ V
  | .done, st => (none, st)
  | .fail e, st => (some e, st)
  | .write text k, st =>
    if st.out.ok then
      execute r k { st with out := { st.out with data := st.out.data ++ text },
                            events := st.events ++ [Event.write text] }
    else (some (.file "output"), st)
  | .vault name k, st =>
    match vaultFunc r name st with
    | (.error e, st1) => (some (.call "vault" e), st1)
    | (.ok secret, st1) => execute r (k secret) st1

/-- What `render` leaves behind. -/
structure RenderOut (σ V : Type) where
  result : Except Error (Secrets V)
  out : Sink
  reader : σ
  events : List (Event V)

/-- The method `VaultifyTemplate.render`. The parser of `text/template` (with the delimiters
and the function map set) is the parameter `parse`. -/
def render {σ V : Type} (parse : String → Except Error (Exec V)) (r : SecretReader σ V)
    (input : String) (output : Sink) (rs : σ) : RenderOut σ V :=
  let auth := r.GetAuthSecret rs
  match parse input with
  | .error e => { result := .error e, out := output, reader := rs, events := [] }
  | .ok tmpl =>
    let x := execute r tmpl { reader := rs, secrets := mapEmpty, out := output, events := [] }
    match x.1 with
    | some e => { result := .error e, out := x.2.out, reader := x.2.reader, events := x.2.events }
    | none =>
      { result := .ok { AuthSecret := auth, Secrets := x.2.secrets },
        out := x.2.out, reader := x.2.reader, events := x.2.events }

/-! ## Files, the static reader and the command -/

/-- A file: its bytes and its permission bits. -/
structure File where
  content : String
  mode : Nat
deriving DecidableEq, Repr

/-- The part of the operating system the command touches. The three predicates
say for which paths creating, changing the mode and writing succeed. -/
structure World where
  files : String → Option File
  stdout : String
  stdoutOk : Bool
  umask : Nat
  creatable : String → Bool
  chmodable : String → Bool
  writable : String → Bool

/-- The call `os.Create(path)`, that is `OpenFile(path, O_RDWR|O_CREATE|O_TRUNC, 0666)`:
an existing file is truncated and keeps its mode, a new one gets `0666 &^ umask`. -/
def osCreate (w : World) (path : String) : Option World :=
  if w.creatable path then
    let mode := match w.files path with
      | some f => f.mode
      | none => 0o666 &&& (0o777 ^^^ (w.umask &&& 0o777))
    some { w with files := mapSet w.files path { content := "", mode := mode } }
  else none

/-- The call `file.Chmod(mode)` on the open file at `path`: the error, if any, and
the world afterwards. -/
def fileChmod (w : World) (path : String) (mode : Nat) : Option Error × World :=
  if w.chmodable path then
    match w.files path with
    | some f => (none, { w with files := mapSet w.files path { f with mode := mode } })
    | none => (some (.file path), w)
  else (some (.file path), w)

/-- The bytes written through the open file end up as the content of the file. -/
def setContent (w : World) (path : String) (data : String) : World :=
  match w.files path with
  | some f => { w with files := mapSet w.files path { f with content := data } }
  | none => w

/-- The world, the state of the Secret Reader and the calls made so far. -/
structure Sys (σ V : Type) where
  world : World
  reader : σ
  events : List (Event V)

/-- The method `VaultifyTemplate.RenderToFile`. -/
def RenderToFile {σ V : Type} (parse : String → Except Error (Exec V)) (r : SecretReader σ V)
    (templateFile outputFile : String) (s : Sys σ V) : Except Error (Secrets V) × Sys σ V :=
  match s.world.files templateFile with
  | none => (.error (.file templateFile), s)
  | some tf =>
    if outputFile = "" then
      let x := render parse r tf.content { data := s.world.stdout, ok := s.world.stdoutOk } s.reader
      (x.result, { world := { s.world with stdout := x.out.data },
                   reader := x.reader, events := s.events ++ x.events })
    else
      match osCreate s.world outputFile with
      | none => (.error (.file outputFile), s)
      | some w1 =>
        let w2 := (fileChmod w1 outputFile 0o600).2
        let x := render parse r tf.content { data := "", ok := w2.writable outputFile } s.reader
        (x.result, { world := setContent w2 outputFile x.out.data,
                     reader := x.reader, events := s.events ++ x.events })

/-- Modelled from the spec: `secrets.NewMapReader` (package `pkg/secrets` is not
under src/), the static Secret Reader: "Fetch returns the mapped value or fails
with NotFound; GetAuthSecret returns an empty/no-lease placeholder". -/
def NewMapReader {σ V : Type} [Inhabited V] (values : String → Option V) : SecretReader σ V where
  Get := fun name rs =>
    match values name with
    | some v => (.ok { value := v, leaseID := "", leaseDuration := 0 }, rs)
    | none => (.error (.notFound name), rs)
  GetAuthSecret := fun _ => { value := default, leaseID := "", leaseDuration := 0 }

/-- The fields of `template.Options` that `Run` and `createSecretReader` read;
`Variables` is the map of the `--var` flags in the order the loop visits it. -/
structure Options where
  TemplateFileName : String
  OutputFileName : String
  SecretsOutputFileName : String
  Variables : List (String × String)
  Role : String
deriving DecidableEq, Repr

/-- What `createSecretReader` returns: `secrets.NewMapReader(values)` or
`secrets.NewVaultReader(vaultClient)`. -/
inductive Reader (V C : Type) where
  | mapReader (values : String → Option V)
  | vaultReader (client : C)

/-- The collaborators that are not under src/, as parameters: the parser of
`text/template`, `json.Unmarshal` into a `secrets.Value`, `vault.NewClient`,
`secrets.NewVaultReader` and `secrets.Write`. -/
structure Env (σ V C : Type) where
  parse : String → Except Error (Exec V)
  decode : String → Except Error V
  newClient : Options → Except Error C
  vaultReader : C → SecretReader σ V
  secretsWrite : String → Secrets V → World → Option Error × World

/-- The loop of `createSecretReader` over `options.Variables`. -/
def decodeAll {V : Type} (decode : String → Except Error V) :
    List (String × String) → (String → Option V) → Except Error (String → Option V)
  | [], values => .ok values
  | (name, jsonString) :: rest, values =>
    match decode jsonString with
    | .error e => .error e
    | .ok secret => decodeAll decode rest (mapSet values name secret)

/-- The function `createSecretReader`, with the events of the call. -/
def createSecretReader {σ V C : Type} (env : Env σ V C) (options : Options) :
    Except Error (Reader V C) × List (Event V) :=
  if options.Variables.length > 0 then
    match decodeAll env.decode options.Variables mapEmpty with
    | .error e => (.error e, [])
    | .ok values => (.ok (.mapReader values), [])
  else
    match env.newClient options with
    | .error e => (.error e, [Event.newClient])
    | .ok vaultClient => (.ok (.vaultReader vaultClient), [Event.newClient])

/-- The Secret Reader behind a `Reader`. -/
def Reader.toSecretReader {σ V C : Type} [Inhabited V] (env : Env σ V C) :
    Reader V C → SecretReader σ V
  | .mapReader values => NewMapReader values
  | .vaultReader client => env.vaultReader client

/-- The function `Run` of the template command. -/
def Run {σ V C : Type} [Inhabited V] (env : Env σ V C) (options : Options) (s : Sys σ V) :
    Option Error × Sys σ V :=
  let c := createSecretReader env options
  let s0 : Sys σ V := { s with events := s.events ++ c.2 }
  match c.1 with
  | .error e => (some e, s0)
  | .ok secretReader =>
    match RenderToFile env.parse (secretReader.toSecretReader env)
        options.TemplateFileName options.OutputFileName s0 with
    | (.error e, s1) => (some e, s1)
    | (.ok resultSecrets, s1) =>
      if options.SecretsOutputFileName = "" then (none, s1)
      else
        let x := env.secretsWrite options.SecretsOutputFileName resultSecrets s1.world
        (x.1, { s1 with world := x.2,
                        events := s1.events ++
                          [Event.secretsWrite options.SecretsOutputFileName resultSecrets] })

/-! ## Log level -/

/-- The levels of `hclog` that `logLevel` returns. -/
inductive Level where
  | Trace
  | Debug
  | Info
  | Warn
  | Error
deriving DecidableEq, Repr

/-- The constants of `hclog`: `Trace = 1`, ..., `Error = 5`. A logger set to a
level prints the messages of that level and of the levels above it. -/
def Level.toNat : Level → Nat
  | .Trace => 1
  | .Debug => 2
  | .Info => 3
  | .Warn => 4
  | .Error => 5

/-- How much a logger set to the level prints: error 0, warn 1, info 2, debug 3,
trace 4. -/
def Level.verbosity (l : Level) : Nat := 5 - l.toNat

/-- The function `logLevel`, on the value of `flags.logLevel`. -/
def logLevel (count : Int) : Level :=
  match count with
  | 0 => Level.Error
  | 1 => Level.Warn
  | 2 => Level.Info
  | 3 => Level.Debug
  | _ => Level.Trace

/-! ## Reading the list of events -/

/-- The names with which the evaluator called `vault`, in order. -/
def lookupNames {V : Type} : List (Event V) → List String
  | [] => []
  | .lookup n :: es => n :: lookupNames es
  | _ :: es => lookupNames es

/-- What the last call of `Get` with the name `n` returned, if there was one. -/
def lastGet {V : Type} (n : String) : List (Event V) → Option (Except Error (Secret V))
  | [] => none
  | .get m res :: es =>
    match lastGet n es with
    | some x => some x
    | none => if m = n then some res else none
  | _ :: es => lastGet n es

/-- The names with which `Get` was called, in order. -/
def getNames {V : Type} : List (Event V) → List String
  | [] => []
  | .get n _ :: es => n :: getNames es
  | _ :: es => getNames es

/-- The text written to the sink, in order. -/
def written {V : Type} : List (Event V) → String
  | [] => ""
  | .write t :: es => t ++ written es
  | _ :: es => written es

/-- The calls of `secrets.Write`, in order. -/
def writeCalls {V : Type} : List (Event V) → List (String × Secrets V)
  | [] => []
  | .secretsWrite p rec :: es => (p, rec) :: writeCalls es
  | _ :: es => writeCalls es

/-- The number of calls of `vault.NewClient`. -/
def newClientCalls {V : Type} : List (Event V) → Nat
  | [] => 0
  | .newClient :: es => newClientCalls es + 1
  | _ :: es => newClientCalls es

/-- The link between the record under construction and the calls made so far:
the names looked up are the keys, and each key holds what the last `Get` with
that name returned. -/
def RecordInv {σ V : Type} (st : ExecState σ V) : Prop :=
  (∀ n, n ∈ lookupNames st.events ↔ (st.secrets n).isSome = true) ∧
  (∀ n, lastGet n st.events = (st.secrets n).map Except.ok)

/-! ## Concrete inputs -/

/-- The overrides of the example of the spec: `user` is `alice`. -/
def aliceValues : String → Option String := mapSet mapEmpty "user" "alice"

/-- The static reader over `aliceValues`. -/
def aliceReader : SecretReader Unit String := NewMapReader aliceValues

/-- The secret `aliceReader` returns for `user`. -/
def aliceSecret : Secret String := { value := "alice", leaseID := "", leaseDuration := 0 }

/-- The template `Hello <{ vault "user" }>.` as `Execute` runs it: the text
`Hello `, the call of `vault`, the printed result of the call, the text `.`. How
`text/template` prints the `*secrets.Secret` it got back is the parameter `print`. -/
def helloTemplate {V : Type} (print : Secret V → String) : Exec V :=
  .write "Hello " (.vault "user" (fun s => .write (print s) (.write "." .done)))

/-- A parser that knows one template. -/
def constParse {V : Type} (t : Exec V) : String → Except Error (Exec V) := fun _ => .ok t

/-- An output sink that is empty and accepts writes. -/
def emptySink : Sink := { data := "", ok := true }

/-- The record of rendering `helloTemplate` with `aliceReader`. -/
def aliceRecord : Secrets String :=
  { AuthSecret := { value := "", leaseID := "", leaseDuration := 0 },
    Secrets := mapSet mapEmpty "user" aliceSecret }

/-- A template with text and a successful lookup before a lookup that fails:
`user: <{ (vault "user").Value }> password: <{ (vault "missing").Value }>`. -/
def failingTemplate : Exec String :=
  .write "user: " (.vault "user" (fun s => .write s.value
    (.write " password: " (.vault "missing" (fun t => .write t.value .done)))))

/-- A reader whose `Get` returns the same secret for every name. -/
def constReader {V : Type} (s : Secret V) : SecretReader Unit V where
  Get := fun _ rs => (.ok s, rs)
  GetAuthSecret := fun _ => s

/-- The value `alice` with a lease, as a live store would return it. -/
def leasedAlice : Secret String :=
  { value := "alice", leaseID := "database/creds/app/42", leaseDuration := 3600 }

/-- The state in which `render` starts `Execute` on an empty sink. -/
def startState : ExecState Unit String :=
  { reader := (), secrets := mapEmpty, out := emptySink, events := [] }

/-- Cuts a text at every occurrence of `delim`, left to right: the pieces
between the occurrences. `skip` counts the characters of a delimiter that are
still to be passed over and `acc` holds the piece read so far, reversed. -/
def splitAll (delim : List Char) : Nat → List Char → List Char → List (List Char)
  | _, acc, [] => [acc.reverse]
  | skip + 1, acc, _ :: rest => splitAll delim skip acc rest
  | 0, acc, c :: rest =>
    if delim.isPrefixOf (c :: rest) then
      acc.reverse :: splitAll delim (delim.length - 1) [] rest
    else splitAll delim 0 (c :: acc) rest

/-- Whether `delim` occurs in the text. -/
def occurs (delim : List Char) (cs : List Char) : Bool :=
  (splitAll delim 0 [] cs).length != 1

/-- Drops the blanks at the start. -/
def trimLeft : List Char → List Char
  | [] => []
  | c :: cs => if " ".data.isPrefixOf (c :: cs) then trimLeft cs else c :: cs

/-- The name in an action of the shape `vault "name"` (blanks around it
allowed, no escape in the name); no other action is read. -/
def parseAction (action : List Char) : Option String :=
  let a := trimLeft action
  if "vault ".data.isPrefixOf a then
    let b := trimLeft (a.drop 6)
    if "\"".data.isPrefixOf b then
      match splitAll "\"".data 0 [] (b.drop 1) with
      | [name, tail] =>
        if trimLeft tail = [] ∧ occurs "\\".data name = false then some (String.mk name)
        else none
      | _ => none
    else none
  else none

/-- A text node of a template; `text/template` makes no node for an empty text. -/
def textNode {V : Type} (text : List Char) (k : Exec V) : Exec V :=
  if text = [] then k else .write (String.mk text) k

/-- The nodes after the first text: each piece is an action, the closing
delimiter and the text up to the next action. -/
def parsePieces {V : Type} (print : Secret V → String) :
    List (List Char) → Except Error (Exec V)
  | [] => .ok .done
  | piece :: rest =>
    match splitAll "\x7d>".data 0 [] piece with
    | action :: text :: more =>
      match parseAction action, parsePieces print rest with
      | some name, .ok k =>
        .ok (.vault name (fun s =>
          .write (print s) (textNode ("\x7d>".data.intercalate (text :: more)) k)))
      | none, _ => .error (.other "function not defined")
      | _, .error e => .error e
    | _ => .error (.other "unclosed action")

/-- A parser for the templates of the examples, with the delimiters that
`render` sets: text, and actions of the shape `vault "name"`, whose result the
evaluator prints with `print`. Any other action is reported as an error. -/
def parseTemplate {V : Type} (print : Secret V → String) (source : String) :
    Except Error (Exec V) :=
  match splitAll "<\x7b".data 0 [] source.data with
  | [] => .ok .done
  | first :: rest =>
    match parsePieces print rest with
    | .ok k => .ok (textNode first k)
    | .error e => .error e

/-- A decoder for the overrides of the examples: a JSON object with the one
member `value`, a string without escapes, as in the example of the spec; the
value is the text of the string. Any other input, a bare word included, is
reported as an error, as `json.Unmarshal` reports a bare word. -/
def decodeValue (jsonString : String) : Except Error String :=
  let cs := jsonString.data
  if "\x7b\"value\":\"".data.isPrefixOf cs ∧ "\"\x7d".data.isSuffixOf (cs.drop 10) then
    let inner := ((cs.drop 10).reverse.drop 2).reverse
    if occurs "\\".data inner = true ∨ occurs "\"".data inner = true then
      .error (.other "invalid character after object key:value pair")
    else .ok (String.mk inner)
  else .error (.other "invalid character looking for beginning of value")

/-- An environment for the examples: the parser and the decoder above (a secret
is printed as its value, as the example of the spec has it), a vault client can
be built, the live reader answers with `leasedAlice`, and `secrets.Write` puts a
file with the text `record` at the path. -/
def exampleEnv : Env Unit String Unit where
  parse := parseTemplate Secret.value
  decode := decodeValue
  newClient := fun _ => .ok ()
  vaultReader := fun _ => constReader leasedAlice
  secretsWrite := fun path _ w =>
    (none, { w with files := mapSet w.files path { content := "record", mode := 0o600 } })

/-- The environment of the examples with a vault that cannot be reached. -/
def offlineEnv : Env Unit String Unit :=
  { exampleEnv with newClient := fun _ => .error (.other "no vault address") }

/-- The options of the example: template `tpl`, output file `out`, record file
`secrets`, one override, `user` with the JSON text of the value `alice`. -/
def exampleOptions : Options :=
  { TemplateFileName := "tpl", OutputFileName := "out", SecretsOutputFileName := "secrets",
    Variables := [("user", "\x7b\"value\":\"alice\"\x7d")], Role := "" }

/-- A world with the template file `tpl` and nothing at `out`; every operation
on files succeeds; the file-creation mask is `022`. -/
def exampleWorld : World :=
  { files := mapSet mapEmpty "tpl"
      { content := "Hello <\x7b vault \"user\" \x7d>.", mode := 0o644 },
    stdout := "", stdoutOk := true, umask := 0o022,
    creatable := fun _ => true, chmodable := fun _ => true, writable := fun _ => true }

/-- The world of the example with another template at `tpl`, one that looks up
`missing` after some text, and nothing at `out`. -/
def missingWorld : World :=
  { exampleWorld with
    files := mapSet mapEmpty "tpl"
      { content := "password: <\x7b vault \"missing\" \x7d>", mode := 0o644 } }

/-- The world `missingWorld` with a file at `out` that holds `old config`. -/
def worldWithOutput : World :=
  { missingWorld with
    files := mapSet missingWorld.files "out" { content := "old config", mode := 0o600 } }

/-- A world in which the command may open `out` for writing but may not change
its mode: the file belongs to another user and is writable by everyone. -/
def foreignFileWorld : World :=
  { exampleWorld with
    files := mapSet exampleWorld.files "out" { content := "old config", mode := 0o666 },
    chmodable := fun _ => false }

/-- A world whose file system refuses every change of mode (no file at `out`). -/
def noChmodWorld : World := { exampleWorld with chmodable := fun _ => false }

/-- The start of a run in a world: fresh reader, no call made yet. -/
def startIn (w : World) : Sys Unit String := { world := w, reader := (), events := [] }

/-! ## Theorems -/

theorem lookupNames_append {V : Type} (a b : List (Event V)) :
    lookupNames (a ++ b) = lookupNames a ++ lookupNames b := by
  induction a with
  | nil => rfl
  | cons e es ih => cases e <;> simp [lookupNames, ih]

theorem lastGet_append {V : Type} (n : String) (a b : List (Event V)) :
    lastGet n (a ++ b) =
      match lastGet n b with
      | some x => some x
      | none => lastGet n a := by
  induction a with
  | nil =>
    rw [List.nil_append]
    cases lastGet n b <;> rfl
  | cons e es ih =>
    rw [List.cons_append]
    cases e with
    | get m res =>
      simp only [lastGet, ih]
      cases lastGet n b <;> rfl
    | _ => simp only [lastGet, ih]

theorem vaultFunc_inv {σ V : Type} (r : SecretReader σ V) (name : String) (st st1 : ExecState σ V)
    (secret : Secret V) (hinv : RecordInv st) (h : vaultFunc r name st = (.ok secret, st1)) :
    RecordInv st1 := by
  unfold vaultFunc getVaultSecret at h
  by_cases hn : name = ""
  · simp [hn] at h
  · simp only [hn, if_false] at h
    cases hg : (r.Get name st.reader).1 with
    | error e => simp [hg] at h
    | ok s =>
      simp only [hg, Prod.mk.injEq, Except.ok.injEq] at h
      obtain ⟨hs, hst⟩ := h
      subst hst; subst hs
      constructor
      · intro n
        simp only [lookupNames_append, List.mem_append, lookupNames, List.mem_singleton,
          List.not_mem_nil, or_false, mapSet]
        by_cases hnn : n = name
        · simp [hnn]
        · simp [hnn, hinv.1 n]
      · intro n
        simp only [List.append_assoc, lastGet_append, lastGet, mapSet]
        by_cases hnn : n = name
        · simp [hnn]
        · have hnn2 : ¬ name = n := fun h => hnn h.symm
          simp [hnn, hnn2, hinv.2 n]

theorem execute_inv {σ V : Type} (r : SecretReader σ V) (p : Exec V) :
    ∀ st : ExecState σ V, RecordInv st → (execute r p st).1 = none →
      RecordInv (execute r p st).2 := by
  induction p with
  | done => intro st hinv _; simpa [execute] using hinv
  | fail e => intro st _ h; simp [execute] at h
  | write text k ih =>
    intro st hinv h
    unfold execute at h ⊢
    by_cases hok : st.out.ok = true
    · simp only [hok, if_true] at h ⊢
      apply ih _ _ h
      constructor
      · intro n
        simpa [lookupNames_append, lookupNames] using hinv.1 n
      · intro n
        simpa [lastGet_append, lastGet] using hinv.2 n
    · simp [hok] at h
  | vault name k ih =>
    intro st hinv h
    unfold execute at h ⊢
    cases hv : vaultFunc r name st with
    | mk res st1 =>
      cases res with
      | error e => simp [hv] at h
      | ok secret =>
        simp only [hv] at h ⊢
        exact ih secret st1 (vaultFunc_inv r name st st1 secret hinv hv) h

theorem render_inv {σ V : Type} (parse : String → Except Error (Exec V)) (r : SecretReader σ V)
    (input : String) (output : Sink) (rs : σ) (rec : Secrets V)
    (h : (render parse r input output rs).result = .ok rec) :
    rec.AuthSecret = r.GetAuthSecret rs ∧
    (∀ n, n ∈ lookupNames (render parse r input output rs).events ↔
      (rec.Secrets n).isSome = true) ∧
    (∀ n, lastGet n (render parse r input output rs).events = (rec.Secrets n).map Except.ok) := by
  unfold render at h ⊢
  cases hp : parse input with
  | error e => simp [hp] at h
  | ok tmpl =>
    simp only [hp] at h ⊢
    have hinit : RecordInv ({ reader := rs, secrets := mapEmpty, out := output, events := [] } :
        ExecState σ V) := by
      constructor <;> intro n <;> simp [lookupNames, lastGet, mapEmpty]
    have hi := execute_inv r tmpl _ hinit
    cases hx : (execute r tmpl { reader := rs, secrets := mapEmpty, out := output, events := [] }).1 with
    | some e => simp [hx] at h
    | none =>
      simp only [hx, Except.ok.injEq] at h ⊢
      have hi2 := hi hx
      subst h
      exact ⟨rfl, hi2.1, hi2.2⟩

/-- The parser of the examples reads the template of the spec as the tree
`helloTemplate`, and reports an action it does not know as an error. -/
theorem parseTemplate_hello {V : Type} (print : Secret V → String) :
    parseTemplate print "Hello <\x7b vault \"user\" \x7d>." = .ok (helloTemplate print) ∧
    parseTemplate print "plain text" = .ok (.write "plain text" .done) ∧
    parseTemplate print "<\x7b lookup \"user\" \x7d>" = .error (.other "function not defined") ∧
    parseTemplate print "<\x7b vault \"user\"" = .error (.other "unclosed action") :=
  ⟨rfl, rfl, rfl, rfl⟩

/-! ### The record of a successful render -/

/-- C1: when a render succeeds and the evaluator called `vault` with the names
`n1..nk` (the `lookup` events, in order, repeats allowed), the keys of the
returned record are exactly those names, and each key holds the secret that the
last call of the reader's `Get` with that name returned. -/
theorem render_secrets_exact {σ V : Type} (parse : String → Except Error (Exec V))
    (r : SecretReader σ V) (input : String) (output : Sink) (rs : σ) (rec : Secrets V)
    (h : (render parse r input output rs).result = .ok rec) :
    (∀ n, (rec.Secrets n).isSome = true ↔
      n ∈ lookupNames (render parse r input output rs).events) ∧
    (∀ n s, rec.Secrets n = some s →
      lastGet n (render parse r input output rs).events = some (.ok s)) := by
  obtain ⟨_, hk, hv⟩ := render_inv parse r input output rs rec h
  refine ⟨fun n => (hk n).symm, fun n s hs => ?_⟩
  rw [hv n, hs]
  rfl

/-- The render of `Hello <{ vault "user" }>.` with the reader of the example
succeeds, and there the two parts of C1 read as stated. -/
theorem render_secrets_exact_witness :
    (render (constParse (helloTemplate Secret.value)) aliceReader "" emptySink ()).result
        = .ok aliceRecord ∧
    ((aliceRecord.Secrets "user").isSome = true ↔
      "user" ∈ lookupNames
        (render (constParse (helloTemplate Secret.value)) aliceReader "" emptySink ()).events) ∧
    (aliceRecord.Secrets "user" = some aliceSecret →
      lastGet "user"
        (render (constParse (helloTemplate Secret.value)) aliceReader "" emptySink ()).events
        = some (.ok aliceSecret)) :=
  ⟨rfl,
   (render_secrets_exact (constParse (helloTemplate Secret.value)) aliceReader "" emptySink ()
      aliceRecord rfl).1 "user",
   (render_secrets_exact (constParse (helloTemplate Secret.value)) aliceReader "" emptySink ()
      aliceRecord rfl).2 "user" aliceSecret⟩

/-- C5: the record of a successful render carries the auth secret the reader's
`GetAuthSecret` gives at the start of the render, whether or not `vault` was
called; and when `vault` was called zero times the mapping of the record is
empty. -/
theorem render_auth_secret {σ V : Type} (parse : String → Except Error (Exec V))
    (r : SecretReader σ V) (input : String) (output : Sink) (rs : σ) (rec : Secrets V)
    (h : (render parse r input output rs).result = .ok rec) :
    rec.AuthSecret = r.GetAuthSecret rs ∧
    (lookupNames (render parse r input output rs).events = [] → rec.Secrets = mapEmpty) := by
  obtain ⟨ha, hk, _⟩ := render_inv parse r input output rs rec h
  refine ⟨ha, fun h0 => ?_⟩
  funext n
  have hn := hk n
  rw [h0] at hn
  cases hs : rec.Secrets n with
  | none => rfl
  | some s => simp [hs] at hn

/-- A template of plain text renders with the static reader to a record with
the placeholder auth secret and no secrets. -/
theorem render_auth_secret_witness :
    (render (constParse (Exec.write "plain" Exec.done)) aliceReader "" emptySink ()).result
        = .ok { AuthSecret := aliceReader.GetAuthSecret (), Secrets := mapEmpty } ∧
    lookupNames
      (render (constParse (Exec.write "plain" Exec.done)) aliceReader "" emptySink ()).events
        = [] ∧
    (Secrets.mk (aliceReader.GetAuthSecret ()) mapEmpty).AuthSecret
        = aliceReader.GetAuthSecret () ∧
    (Secrets.mk (aliceReader.GetAuthSecret ()) (mapEmpty : String → Option (Secret String))).Secrets
        = mapEmpty :=
  ⟨rfl, rfl,
   (render_auth_secret (constParse (Exec.write "plain" Exec.done)) aliceReader "" emptySink ()
      { AuthSecret := aliceReader.GetAuthSecret (), Secrets := mapEmpty } rfl).1,
   (render_auth_secret (constParse (Exec.write "plain" Exec.done)) aliceReader "" emptySink ()
      { AuthSecret := aliceReader.GetAuthSecret (), Secrets := mapEmpty } rfl).2 rfl⟩

/-! ### The lookup function -/

/-- C4: with the empty string, `getVaultSecret` and the `vault` function fail
with an error, the reader's `Get` is not called (no `get` event, reader state
untouched) and the record gains no entry, so that `Execute` stops with that
error; with a non-empty name the result is exactly the result of the reader's
`Get` on that name. -/
theorem vault_empty_name {σ V : Type} (r : SecretReader σ V) (rs : σ) (st : ExecState σ V)
    (k : Secret V → Exec V) :
    getVaultSecret r "" rs = (.error .missingName, rs, []) ∧
    vaultFunc r "" st
      = (.error .missingName, { st with events := st.events ++ [Event.lookup ""] }) ∧
    getNames (vaultFunc r "" st).2.events = getNames st.events ∧
    (vaultFunc r "" st).2.secrets = st.secrets ∧
    (vaultFunc r "" st).2.reader = st.reader ∧
    execute r (.vault "" k) st
      = (some (.call "vault" .missingName),
         { st with events := st.events ++ [Event.lookup ""] }) ∧
    (∀ name, name ≠ "" →
      (getVaultSecret r name rs).1 = (r.Get name rs).1 ∧
      (getVaultSecret r name rs).2.1 = (r.Get name rs).2 ∧
      (vaultFunc r name st).1 = (r.Get name st.reader).1) := by
  have hv : vaultFunc r "" st
      = (.error .missingName, { st with events := st.events ++ [Event.lookup ""] }) := by
    simp [vaultFunc, getVaultSecret]
  have hg : ∀ a : List (Event V), getNames (a ++ [Event.lookup ""]) = getNames a := by
    intro a
    induction a with
    | nil => rfl
    | cons e es ih => cases e <;> simp [getNames, ih]
  refine ⟨by simp [getVaultSecret], hv, ?_, ?_, ?_, ?_, ?_⟩
  · rw [hv]; exact hg _
  · rw [hv]
  · rw [hv]
  · rw [execute, hv]
  · intro name hn
    refine ⟨by simp [getVaultSecret, hn], by simp [getVaultSecret, hn], ?_⟩
    unfold vaultFunc getVaultSecret
    simp only [hn, if_false]
    cases (r.Get name st.reader).1 <;> rfl

/-- The lookup of `user` with the static reader of the example gives what its
`Get` gives. -/
theorem vault_empty_name_witness :
    "user" ≠ "" ∧
    (getVaultSecret aliceReader "user" ()).1 = (aliceReader.Get "user" ()).1 ∧
    (getVaultSecret aliceReader "user" ()).2.1 = (aliceReader.Get "user" ()).2 ∧
    (vaultFunc aliceReader "user"
        { reader := (), secrets := mapEmpty, out := emptySink, events := [] }).1
      = (aliceReader.Get "user" ()).1 :=
  ⟨by decide,
   (vault_empty_name aliceReader ()
      { reader := (), secrets := mapEmpty, out := emptySink, events := [] }
      (fun _ => Exec.done)).2.2.2.2.2.2 "user" (by decide)⟩

/-! ### The log level -/

theorem logLevel_verbosity (c : Int) (hc : 0 ≤ c) :
    (logLevel c).verbosity = min c.toNat 4 := by
  obtain ⟨n, rfl⟩ := Int.eq_ofNat_of_zero_le hc
  match n with
  | 0 => rfl
  | 1 => rfl
  | 2 => rfl
  | 3 => rfl
  | n + 4 =>
    have : logLevel ((n + 4 : Nat) : Int) = Level.Trace := by
      unfold logLevel
      split <;> first | rfl | omega
    rw [this]
    simp only [Level.verbosity, Level.toNat, Int.toNat_ofNat]
    omega

/-- C10: a count of 0 gives error, 1 warn, 2 info, 3 debug and every count from
4 on trace; and for counts `0 ≤ a ≤ b` the level at `b` is at least as verbose
as the level at `a` in the order error < warn < info < debug < trace. -/
theorem logLevel_monotone (a b : Int) (ha : 0 ≤ a) (hab : a ≤ b) :
    logLevel 0 = Level.Error ∧ logLevel 1 = Level.Warn ∧ logLevel 2 = Level.Info ∧
    logLevel 3 = Level.Debug ∧ (∀ c : Int, 4 ≤ c → logLevel c = Level.Trace) ∧
    (logLevel a).verbosity ≤ (logLevel b).verbosity := by
  refine ⟨rfl, rfl, rfl, rfl, ?_, ?_⟩
  · intro c hc
    unfold logLevel
    split <;> first | rfl | omega
  · rw [logLevel_verbosity a ha, logLevel_verbosity b (le_trans ha hab)]
    have : a.toNat ≤ b.toNat := Int.toNat_le_toNat hab
    omega

/-- Two and five: info is no more verbose than trace. -/
theorem logLevel_monotone_witness :
    (0 : Int) ≤ 2 ∧ (2 : Int) ≤ 5 ∧ logLevel 5 = Level.Trace ∧
    (logLevel 2).verbosity ≤ (logLevel 5).verbosity :=
  ⟨by decide, by decide,
   (logLevel_monotone 2 5 (by decide) (by decide)).2.2.2.2.1 5 (by decide),
   (logLevel_monotone 2 5 (by decide) (by decide)).2.2.2.2.2⟩

/-! ### A failing lookup -/

theorem vaultFunc_eq {σ V : Type} (r : SecretReader σ V) (name : String) (st : ExecState σ V) :
    vaultFunc r name st =
      if name = "" then
        (.error .missingName, { st with events := st.events ++ [Event.lookup name] })
      else
        match (r.Get name st.reader).1 with
        | .error e =>
          (.error e, { st with reader := (r.Get name st.reader).2,
                               events := st.events ++
                                 [Event.lookup name, Event.get name (.error e)] })
        | .ok secret =>
          (.ok secret, { reader := (r.Get name st.reader).2,
                         secrets := mapSet st.secrets name secret,
                         out := st.out,
                         events := st.events ++
                           [Event.lookup name, Event.get name (.ok secret)] }) := by
  unfold vaultFunc getVaultSecret
  by_cases hn : name = ""
  · simp [hn]
  · simp only [hn, if_false]
    cases (r.Get name st.reader).1 <;> simp

theorem written_append {V : Type} (a b : List (Event V)) :
    written (a ++ b) = written a ++ written b := by
  induction a with
  | nil => simp [written]
  | cons e es ih => cases e <;> simp [written, ih, String.append_assoc]

/-- What `Execute` does to the state: it appends events, the sink receives the
text of the `write` events and nothing else, and a failed `Get` ends the run
with the error of that `Get`. -/
theorem execute_spec {σ V : Type} (r : SecretReader σ V) (p : Exec V) :
    ∀ st : ExecState σ V, ∃ evs : List (Event V),
      (execute r p st).2.events = st.events ++ evs ∧
      (execute r p st).2.out.data = st.out.data ++ written evs ∧
      (execute r p st).2.out.ok = st.out.ok ∧
      (∀ n e, Event.get n (.error e) ∈ evs →
        (execute r p st).1 = some (.call "vault" e) ∧
        ∃ pre, evs = pre ++ [Event.get n (.error e)]) := by
  induction p with
  | done => intro st; exact ⟨[], by simp [execute, written]⟩
  | fail e => intro st; exact ⟨[], by simp [execute, written]⟩
  | write text k ih =>
    intro st
    unfold execute
    by_cases hok : st.out.ok = true
    · rw [if_pos hok]
      obtain ⟨evs, h1, h2, h3, h4⟩ := ih
        { st with out := { st.out with data := st.out.data ++ text },
                  events := st.events ++ [Event.write text] }
      refine ⟨Event.write text :: evs, ?_, ?_, ?_, ?_⟩
      · rw [h1]; simp
      · rw [h2]; simp [written, String.append_assoc]
      · rw [h3]
      · intro n e hm
        have hm2 : Event.get n (.error e) ∈ evs := by simpa using hm
        obtain ⟨hr, pre, hpre⟩ := h4 n e hm2
        exact ⟨hr, Event.write text :: pre, by rw [hpre]; rfl⟩
    · exact ⟨[], by simp [hok, written]⟩
  | vault name k ih =>
    intro st
    unfold execute
    rw [vaultFunc_eq]
    by_cases hn : name = ""
    · simp only [hn, if_true]
      exact ⟨[Event.lookup ""], by simp [written]⟩
    · simp only [hn, if_false]
      cases hg : (r.Get name st.reader).1 with
      | error e =>
        refine ⟨[Event.lookup name, Event.get name (.error e)], rfl, by simp [written], rfl, ?_⟩
        intro n e2 hm
        simp only [List.mem_cons, List.mem_singleton, Event.get.injEq, Except.error.injEq,
          List.not_mem_nil, or_false, false_or] at hm
        rcases hm with h | ⟨rfl, rfl⟩
        · cases h
        · exact ⟨rfl, [Event.lookup n], rfl⟩
      | ok secret =>
        simp only []
        obtain ⟨evs, h1, h2, h3, h4⟩ := ih secret
          { reader := (r.Get name st.reader).2, secrets := mapSet st.secrets name secret,
            out := st.out,
            events := st.events ++ [Event.lookup name, Event.get name (.ok secret)] }
        refine ⟨Event.lookup name :: Event.get name (.ok secret) :: evs, ?_, ?_, ?_, ?_⟩
        · rw [h1]; simp
        · rw [h2]; simp [written]
        · rw [h3]
        · intro n e hm
          have hm2 : Event.get n (.error e) ∈ evs := by simpa using hm
          obtain ⟨hr, pre, hpre⟩ := h4 n e hm2
          exact ⟨hr, Event.lookup name :: Event.get name (.ok secret) :: pre, by rw [hpre]; rfl⟩

theorem failing_get_mem :
    Event.get "missing" (.error (.notFound "missing"))
      ∈ (render (constParse failingTemplate) aliceReader "" emptySink ()).events := by
  have h : (render (constParse failingTemplate) aliceReader "" emptySink ()).events
      = [Event.write "user: ", Event.lookup "user", Event.get "user" (.ok aliceSecret),
         Event.write "alice", Event.write " password: ", Event.lookup "missing",
         Event.get "missing" (.error (.notFound "missing"))] := rfl
  rw [h]
  simp

/-- C2, as stated, fails: a lookup of `missing` fails in the reader's `Get`,
`render` returns the error, and the sink has already received the text and the
secret that precede the failing lookup. -/
theorem render_failure_counterexample :
    (render (constParse failingTemplate) aliceReader "" emptySink ()).events
      = [Event.write "user: ", Event.lookup "user", Event.get "user" (.ok aliceSecret),
         Event.write "alice", Event.write " password: ", Event.lookup "missing",
         Event.get "missing" (.error (.notFound "missing"))] ∧
    (render (constParse failingTemplate) aliceReader "" emptySink ()).result
      = .error (.call "vault" (.notFound "missing")) ∧
    (render (constParse failingTemplate) aliceReader "" emptySink ()).out.data
      = "user: alice password: " ∧
    (render (constParse failingTemplate) aliceReader "" emptySink ()).out ≠ emptySink :=
  ⟨rfl, rfl, by decide, by decide⟩

/-- C2, amended: when a lookup fails because the reader's `Get` fails, `render`
returns no record but the evaluator's error for the failed call of `vault`,
which carries the error of `Get`; that `Get` is the last event of the render;
and the sink holds what it held before followed by exactly the text the
evaluator wrote before the failing lookup (that text is not taken back). -/
theorem render_failure {σ V : Type} (parse : String → Except Error (Exec V))
    (r : SecretReader σ V) (input : String) (output : Sink) (rs : σ) (n : String) (e : Error)
    (h : Event.get n (.error e) ∈ (render parse r input output rs).events) :
    (render parse r input output rs).result = .error (.call "vault" e) ∧
    (∃ pre, (render parse r input output rs).events = pre ++ [Event.get n (.error e)]) ∧
    (render parse r input output rs).out.data
      = output.data ++ written (render parse r input output rs).events := by
  unfold render at h ⊢
  cases hp : parse input with
  | error e0 => simp [hp] at h
  | ok tmpl =>
    simp only [hp] at h ⊢
    obtain ⟨evs, h1, h2, _, h4⟩ := execute_spec r tmpl
      { reader := rs, secrets := mapEmpty, out := output, events := [] }
    simp only [List.nil_append] at h1
    have hev : Event.get n (.error e) ∈ evs := by
      rw [← h1]
      split at h <;> exact h
    obtain ⟨hr, pre, hpre⟩ := h4 n e hev
    rw [hr]
    refine ⟨rfl, ⟨pre, ?_⟩, ?_⟩
    · show (execute r tmpl _).2.events = _
      rw [h1, hpre]
    · show (execute r tmpl _).2.out.data = _
      rw [h2, h1]

/-- The render of `failingTemplate`: the `Get` of `missing` fails, the error
comes back, and the sink holds the text written before. -/
theorem render_failure_witness :
    Event.get "missing" (.error (.notFound "missing"))
      ∈ (render (constParse failingTemplate) aliceReader "" emptySink ()).events ∧
    (render (constParse failingTemplate) aliceReader "" emptySink ()).result
      = .error (.call "vault" (.notFound "missing")) ∧
    (render (constParse failingTemplate) aliceReader "" emptySink ()).out.data
      = emptySink.data
        ++ written (render (constParse failingTemplate) aliceReader "" emptySink ()).events :=
  ⟨failing_get_mem,
   (render_failure (constParse failingTemplate) aliceReader "" emptySink () "missing"
      (.notFound "missing") failing_get_mem).1,
   (render_failure (constParse failingTemplate) aliceReader "" emptySink () "missing"
      (.notFound "missing") failing_get_mem).2.2⟩

/-! ### What the lookup hands to the evaluator -/

/-- C6, as stated, fails: what `vault` returns to the evaluator is the `Secret`
itself and not its value. Two secrets with the same value `alice` and different
lease data come back as different results, and a template that prints the
lease identifier of what it got back renders that identifier. -/
theorem vault_returns_value_counterexample :
    leasedAlice.value = aliceSecret.value ∧
    (vaultFunc (constReader leasedAlice) "user" startState).1 = .ok leasedAlice ∧
    (vaultFunc (constReader aliceSecret) "user" startState).1 = .ok aliceSecret ∧
    (vaultFunc (constReader leasedAlice) "user" startState).1
      ≠ (vaultFunc (constReader aliceSecret) "user" startState).1 ∧
    (render (constParse (helloTemplate Secret.leaseID)) (constReader leasedAlice) "" emptySink
      ()).out.data = "Hello database/creds/app/42." := by
  refine ⟨rfl, rfl, rfl, ?_, by decide⟩
  intro h
  have h2 : (Except.ok leasedAlice : Except Error (Secret String)) = .ok aliceSecret := h
  injection h2 with h3
  exact absurd h3 (by decide)

/-- C6, amended: for every successful lookup of a non-empty name the `vault`
function returns to the evaluator the `Secret` that `Get` returned (value and
lease data), the same one it recorded under that name; so with the static
reader that maps `user` to the value `alice` the template
`Hello <{ vault "user" }>.` renders `Hello `, then whatever the evaluator prints
for that `Secret`, then `.`, and the mapping of the record is `user` to the
secret with value `alice`. -/
theorem vault_returns_secret {σ V : Type} (r : SecretReader σ V) (name : String)
    (st : ExecState σ V) (s : Secret V) (print : Secret String → String)
    (hn : name ≠ "") (hg : (r.Get name st.reader).1 = .ok s) :
    (vaultFunc r name st).1 = .ok s ∧
    (vaultFunc r name st).2.secrets name = some s ∧
    (render (constParse (helloTemplate print)) aliceReader "" emptySink ()).out.data
      = "Hello " ++ print aliceSecret ++ "." ∧
    (render (constParse (helloTemplate print)) aliceReader "" emptySink ()).result
      = .ok aliceRecord ∧
    aliceRecord.Secrets = mapSet mapEmpty "user" aliceSecret ∧
    aliceSecret.value = "alice" := by
  refine ⟨?_, ?_, ?_, rfl, rfl, rfl⟩
  · rw [vaultFunc_eq, if_neg hn, hg]
  · rw [vaultFunc_eq, if_neg hn, hg]
    simp [mapSet]
  · show ((emptySink.data ++ "Hello ") ++ print aliceSecret) ++ "." = _
    rfl

/-- The lookup of `user` with the static reader of the example. -/
theorem vault_returns_secret_witness :
    "user" ≠ "" ∧
    (aliceReader.Get "user" startState.reader).1 = .ok aliceSecret ∧
    (vaultFunc aliceReader "user" startState).1 = .ok aliceSecret ∧
    (vaultFunc aliceReader "user" startState).2.secrets "user" = some aliceSecret ∧
    (render (constParse (helloTemplate Secret.value)) aliceReader "" emptySink ()).out.data
      = "Hello " ++ aliceSecret.value ++ "." :=
  ⟨by decide, rfl,
   (vault_returns_secret aliceReader "user" startState aliceSecret Secret.value
      (by decide) rfl).1,
   (vault_returns_secret aliceReader "user" startState aliceSecret Secret.value
      (by decide) rfl).2.1,
   (vault_returns_secret aliceReader "user" startState aliceSecret Secret.value
      (by decide) rfl).2.2.1⟩

/-! ### The choice of the Secret Reader -/

theorem decodeAll_ok {V : Type} (decode : String → Except Error V) :
    ∀ (l : List (String × String)) (values0 : String → Option V),
      (l.map Prod.fst).Nodup → (∀ p ∈ l, ∃ v, decode p.2 = .ok v) →
      ∃ values, decodeAll decode l values0 = .ok values ∧
        (∀ name js v, (name, js) ∈ l → decode js = .ok v → values name = some v) ∧
        (∀ name, name ∉ l.map Prod.fst → values name = values0 name) := by
  intro l
  induction l with
  | nil => intro values0 _ _; exact ⟨values0, rfl, by simp, by simp⟩
  | cons p rest ih =>
    intro values0 hnd hall
    obtain ⟨name0, js0⟩ := p
    obtain ⟨v0, hv0⟩ := hall (name0, js0) (List.mem_cons_self _ _)
    simp only [List.map_cons, List.nodup_cons] at hnd
    obtain ⟨values, h1, h2, h3⟩ := ih (mapSet values0 name0 v0) hnd.2
      (fun q hq => hall q (List.mem_cons_of_mem _ hq))
    refine ⟨values, ?_, ?_, ?_⟩
    · simp only [decodeAll]
      simp only [] at hv0
      rw [hv0]
      exact h1
    · intro name js v hm hd
      rcases List.mem_cons.mp hm with heq | hin
      · obtain ⟨rfl, rfl⟩ := Prod.mk.inj heq
        rw [h3 name hnd.1]
        simp only [] at hv0
        rw [hv0] at hd
        injection hd with hd
        simp [mapSet, hd]
      · exact h2 name js v hin hd
    · intro name hnot
      simp only [List.map_cons, List.mem_cons, not_or] at hnot
      rw [h3 name hnot.2]
      simp [mapSet, hnot.1]

theorem decodeAll_error {V : Type} (decode : String → Except Error V) :
    ∀ (l : List (String × String)) (values0 : String → Option V),
      (∃ p ∈ l, ∃ e, decode p.2 = .error e) →
      ∃ e, decodeAll decode l values0 = .error e := by
  intro l
  induction l with
  | nil => intro _ h; simp at h
  | cons p rest ih =>
    intro values0 h
    obtain ⟨name0, js0⟩ := p
    simp only [decodeAll]
    cases hd : decode js0 with
    | error e => exact ⟨e, rfl⟩
    | ok v =>
      simp only []
      apply ih
      obtain ⟨q, hq, e, he⟩ := h
      rcases List.mem_cons.mp hq with heq | hin
      · subst heq
        simp only [] at he
        rw [hd] at he
        cases he
      · exact ⟨q, hin, e, he⟩

/-- C9, as stated, fails for the empty override set: with no override
`createSecretReader` calls `vault.NewClient`; it returns the live reader, not
the static one, and when the client cannot be built it returns the error of
`vault.NewClient` and no reader, although no override failed to decode. -/
theorem createSecretReader_empty_counterexample :
    ({ exampleOptions with Variables := [] } : Options).Variables = [] ∧
    createSecretReader exampleEnv { exampleOptions with Variables := [] }
      = (.ok (.vaultReader ()), [Event.newClient]) ∧
    newClientCalls
      (createSecretReader exampleEnv { exampleOptions with Variables := [] }).2 = 1 ∧
    createSecretReader offlineEnv { exampleOptions with Variables := [] }
      = (.error (.other "no vault address"), [Event.newClient]) :=
  ⟨rfl, rfl, rfl, rfl⟩

/-- C9, amended: for every options value (the override names pairwise distinct,
as the keys of a Go map are): when the set of overrides is non-empty,
`createSecretReader` makes no call of `vault.NewClient`; if every override
string decodes, it returns the static reader over a mapping whose keys are
exactly the override names, each mapped to the decoding of its own string; if
some override string fails to decode, it returns an error and no reader. When
the set of overrides is empty, it calls `vault.NewClient` once and returns the
live reader over the client, or the error of `vault.NewClient` and no reader. -/
theorem createSecretReader_static {σ V C : Type} (env : Env σ V C) (options : Options)
    (hnd : (options.Variables.map Prod.fst).Nodup) :
    (options.Variables ≠ [] →
      (createSecretReader env options).2 = [] ∧
      ((∀ p ∈ options.Variables, ∃ v, env.decode p.2 = .ok v) →
        ∃ values, (createSecretReader env options).1 = .ok (.mapReader values) ∧
          (∀ name, (values name).isSome = true ↔ name ∈ options.Variables.map Prod.fst) ∧
          (∀ name js v, (name, js) ∈ options.Variables → env.decode js = .ok v →
            values name = some v)) ∧
      ((∃ p ∈ options.Variables, ∃ e, env.decode p.2 = .error e) →
        ∃ e, (createSecretReader env options).1 = .error e)) ∧
    (options.Variables = [] →
      (createSecretReader env options).2 = [Event.newClient] ∧
      (∀ client, env.newClient options = .ok client →
        (createSecretReader env options).1 = .ok (.vaultReader client)) ∧
      (∀ e, env.newClient options = .error e →
        (createSecretReader env options).1 = .error e)) := by
  constructor
  · intro hne
    have hlen : options.Variables.length > 0 := List.length_pos.mpr hne
    unfold createSecretReader
    rw [if_pos hlen]
    refine ⟨?_, ?_, ?_⟩
    · cases decodeAll env.decode options.Variables mapEmpty <;> rfl
    · intro hall
      obtain ⟨values, h1, h2, h3⟩ :=
        decodeAll_ok env.decode options.Variables mapEmpty hnd hall
      refine ⟨values, by rw [h1], ?_, h2⟩
      intro name
      constructor
      · intro hs
        by_contra hnot
        rw [h3 name hnot] at hs
        simp [mapEmpty] at hs
      · intro hin
        obtain ⟨p, hp, hpn⟩ := List.mem_map.mp hin
        obtain ⟨v, hv⟩ := hall p hp
        have : values name = some v := h2 name p.2 v (by rw [← hpn]; exact hp) hv
        rw [this]
        rfl
    · intro herr
      obtain ⟨e, he⟩ := decodeAll_error env.decode options.Variables mapEmpty herr
      exact ⟨e, by rw [he]⟩
  · intro hempty
    have hlen : ¬ options.Variables.length > 0 := by simp [hempty]
    unfold createSecretReader
    rw [if_neg hlen]
    refine ⟨?_, ?_, ?_⟩
    · cases env.newClient options <;> rfl
    · intro client hc
      rw [hc]
    · intro e he
      rw [he]

/-- The override of `user` with the JSON text of the value `alice`: no vault
client, and the static reader maps `user` to the decoding of that text; and
with no override, one call of `vault.NewClient` and the live reader. -/
theorem createSecretReader_static_witness :
    (exampleOptions.Variables.map Prod.fst).Nodup ∧ exampleOptions.Variables ≠ [] ∧
    (createSecretReader exampleEnv exampleOptions).2 = [] ∧
    (∃ values, (createSecretReader exampleEnv exampleOptions).1 = .ok (.mapReader values) ∧
      ((values "user").isSome = true ↔ "user" ∈ exampleOptions.Variables.map Prod.fst) ∧
      (("user", "\x7b\"value\":\"alice\"\x7d") ∈ exampleOptions.Variables →
        exampleEnv.decode "\x7b\"value\":\"alice\"\x7d" = .ok "alice" →
        values "user" = some "alice")) ∧
    exampleEnv.decode "alice"
      = .error (.other "invalid character looking for beginning of value") ∧
    ({ exampleOptions with Variables := [] } : Options).Variables = [] ∧
    (createSecretReader exampleEnv { exampleOptions with Variables := [] }).2
      = [Event.newClient] :=
  ⟨by decide, by decide,
   ((createSecretReader_static exampleEnv exampleOptions (by decide)).1 (by decide)).1,
   (((createSecretReader_static exampleEnv exampleOptions (by decide)).1 (by decide)).2.1
      (by intro p hp; simp [exampleOptions] at hp; subst hp; exact ⟨"alice", rfl⟩)).imp
      (fun values h => ⟨h.1, h.2.1 "user",
        h.2.2 "user" "\x7b\"value\":\"alice\"\x7d" "alice"⟩),
   rfl, rfl,
   ((createSecretReader_static exampleEnv { exampleOptions with Variables := [] }
      (by decide)).2 rfl).1⟩

/-! ### The command: files and the record writer -/

theorem writeCalls_append {V : Type} (a b : List (Event V)) :
    writeCalls (a ++ b) = writeCalls a ++ writeCalls b := by
  induction a with
  | nil => rfl
  | cons e es ih => cases e <;> simp [writeCalls, ih]

theorem execute_writeCalls {σ V : Type} (r : SecretReader σ V) (p : Exec V) :
    ∀ st : ExecState σ V, writeCalls (execute r p st).2.events = writeCalls st.events := by
  induction p with
  | done => intro st; rfl
  | fail e => intro st; rfl
  | write text k ih =>
    intro st
    unfold execute
    by_cases hok : st.out.ok = true
    · rw [if_pos hok, ih]
      simp [writeCalls_append, writeCalls]
    · rw [if_neg hok]
  | vault name k ih =>
    intro st
    unfold execute
    rw [vaultFunc_eq]
    by_cases hn : name = ""
    · rw [if_pos hn]
      simp [writeCalls_append, writeCalls]
    · rw [if_neg hn]
      cases (r.Get name st.reader).1 with
      | error e => simp [writeCalls_append, writeCalls]
      | ok secret =>
        simp only []
        rw [ih]
        simp [writeCalls_append, writeCalls]

/-- With the static reader, a lookup of a name that is not in the mapping ends
the run with the error of that lookup. -/
theorem execute_static_absent {σ V : Type} [Inhabited V] (values : String → Option V)
    (p : Exec V) :
    ∀ st : ExecState σ V, ∃ evs : List (Event V),
      (execute (NewMapReader values) p st).2.events = st.events ++ evs ∧
      (∀ n, Event.lookup n ∈ evs → values n = none →
        (execute (NewMapReader values) p st).1
          = some (.call "vault" (if n = "" then .missingName else .notFound n))) := by
  induction p with
  | done => intro st; exact ⟨[], by simp [execute]⟩
  | fail e => intro st; exact ⟨[], by simp [execute]⟩
  | write text k ih =>
    intro st
    unfold execute
    by_cases hok : st.out.ok = true
    · rw [if_pos hok]
      obtain ⟨evs, h1, h2⟩ := ih
        { st with out := { st.out with data := st.out.data ++ text },
                  events := st.events ++ [Event.write text] }
      refine ⟨Event.write text :: evs, by rw [h1]; simp, ?_⟩
      intro n hm hv
      exact h2 n (by simpa using hm) hv
    · exact ⟨[], by simp [hok]⟩
  | vault name k ih =>
    intro st
    unfold execute
    rw [vaultFunc_eq]
    by_cases hn : name = ""
    · rw [if_pos hn]
      refine ⟨[Event.lookup name], rfl, ?_⟩
      intro n hm _
      have : n = name := by simpa using hm
      simp [this, hn]
    · rw [if_neg hn]
      cases hv : values name with
      | none =>
        have hg : ((NewMapReader values : SecretReader σ V).Get name st.reader).1
            = .error (.notFound name) := by simp [NewMapReader, hv]
        rw [hg]
        refine ⟨[Event.lookup name, Event.get name (.error (.notFound name))], rfl, ?_⟩
        intro n hm _
        have : n = name := by simpa using hm
        simp [this, hn]
      | some v =>
        have hg : ((NewMapReader values : SecretReader σ V).Get name st.reader).1
            = .ok { value := v, leaseID := "", leaseDuration := 0 } := by
          simp [NewMapReader, hv]
        rw [hg]
        simp only []
        obtain ⟨evs, h1, h2⟩ := ih { value := v, leaseID := "", leaseDuration := 0 }
          { reader := ((NewMapReader values : SecretReader σ V).Get name st.reader).2,
            secrets := mapSet st.secrets name { value := v, leaseID := "", leaseDuration := 0 },
            out := st.out,
            events := st.events ++ [Event.lookup name,
              Event.get name (.ok { value := v, leaseID := "", leaseDuration := 0 })] }
        refine ⟨Event.lookup name ::
          Event.get name (.ok { value := v, leaseID := "", leaseDuration := 0 }) :: evs,
          by rw [h1]; simp, ?_⟩
        intro n hm hnone
        simp only [List.mem_cons, Event.lookup.injEq] at hm
        rcases hm with h | h | h
        · rw [h, hv] at hnone
          cases hnone
        · cases h
        · exact h2 n h hnone

theorem render_writeCalls {σ V : Type} (parse : String → Except Error (Exec V))
    (r : SecretReader σ V) (input : String) (output : Sink) (rs : σ) :
    writeCalls (render parse r input output rs).events = [] := by
  unfold render
  cases parse input with
  | error e => rfl
  | ok tmpl =>
    simp only []
    have h := execute_writeCalls r tmpl
      { reader := rs, secrets := mapEmpty, out := output, events := [] }
    split <;> exact h

theorem render_out_data {σ V : Type} (parse : String → Except Error (Exec V))
    (r : SecretReader σ V) (input : String) (output : Sink) (rs : σ) :
    (render parse r input output rs).out.data
      = output.data ++ written (render parse r input output rs).events := by
  unfold render
  cases parse input with
  | error e => simp [written]
  | ok tmpl =>
    simp only []
    obtain ⟨evs, h1, h2, _, _⟩ := execute_spec r tmpl
      { reader := rs, secrets := mapEmpty, out := output, events := [] }
    simp only [List.nil_append] at h1
    rw [← h1] at h2
    split <;> exact h2

theorem render_static_absent {σ V : Type} [Inhabited V] (parse : String → Except Error (Exec V))
    (values : String → Option V) (input : String) (output : Sink) (rs : σ) (n : String)
    (hm : Event.lookup n ∈ (render parse (NewMapReader values) input output rs).events)
    (hv : values n = none) :
    (render parse (NewMapReader values) input output rs).result
      = .error (.call "vault" (if n = "" then .missingName else .notFound n)) := by
  unfold render at hm ⊢
  cases hp : parse input with
  | error e => simp [hp] at hm
  | ok tmpl =>
    simp only [hp] at hm ⊢
    obtain ⟨evs, h1, h2⟩ := execute_static_absent values tmpl
      ({ reader := rs, secrets := mapEmpty, out := output, events := [] } : ExecState σ V)
    simp only [List.nil_append] at h1
    have hm2 : Event.lookup n ∈ evs := by
      rw [← h1]
      split at hm <;> exact hm
    rw [h2 n hm2 hv]

theorem mapSet_self {β : Type} (m : String → Option β) (k : String) (v : β) :
    mapSet m k v k = some v := by
  simp [mapSet]

theorem mapSet_ne {β : Type} (m : String → Option β) (k k' : String) (v : β) (h : k' ≠ k) :
    mapSet m k v k' = m k' := by
  simp [mapSet, h]

theorem osCreate_files (w w1 : World) (path : String) (h : osCreate w path = some w1) :
    (∀ p, p ≠ path → w1.files p = w.files p) ∧
    (∃ f, w1.files path = some f ∧ f.content = "") := by
  unfold osCreate at h
  by_cases hc : w.creatable path = true
  · rw [if_pos hc] at h
    injection h with h
    subst h
    exact ⟨fun p hp => mapSet_ne _ _ _ _ hp, ⟨_, mapSet_self _ _ _, rfl⟩⟩
  · rw [if_neg hc] at h
    cases h

theorem fileChmod_files (w : World) (path : String) (mode : Nat) :
    (∀ p, p ≠ path → (fileChmod w path mode).2.files p = w.files p) ∧
    (∀ f, w.files path = some f →
      ∃ g, (fileChmod w path mode).2.files path = some g ∧ g.content = f.content) := by
  unfold fileChmod
  by_cases hc : w.chmodable path = true
  · rw [if_pos hc]
    cases hf : w.files path with
    | none => exact ⟨fun _ _ => rfl, fun f h => by cases h⟩
    | some f0 =>
      refine ⟨fun p hp => mapSet_ne _ _ _ _ hp, fun f h => ?_⟩
      injection h with h
      subst h
      exact ⟨_, mapSet_self _ _ _, rfl⟩
  · rw [if_neg hc]
    exact ⟨fun _ _ => rfl, fun f h => ⟨f, h, rfl⟩⟩

theorem setContent_files (w : World) (path data : String) :
    (∀ p, p ≠ path → (setContent w path data).files p = w.files p) ∧
    (∀ f, w.files path = some f →
      ∃ g, (setContent w path data).files path = some g ∧ g.content = data) := by
  unfold setContent
  cases hf : w.files path with
  | none => exact ⟨fun _ _ => rfl, fun f h => by cases h⟩
  | some f0 =>
    exact ⟨fun p hp => mapSet_ne _ _ _ _ hp, fun f _ => ⟨_, mapSet_self _ _ _, rfl⟩⟩

theorem RenderToFile_writeCalls {σ V : Type} (parse : String → Except Error (Exec V))
    (r : SecretReader σ V) (templateFile outputFile : String) (s : Sys σ V) :
    writeCalls (RenderToFile parse r templateFile outputFile s).2.events
      = writeCalls s.events := by
  unfold RenderToFile
  cases s.world.files templateFile with
  | none => rfl
  | some tf =>
    simp only []
    by_cases ho : outputFile = ""
    · rw [if_pos ho]
      simp [writeCalls_append, render_writeCalls]
    · rw [if_neg ho]
      cases osCreate s.world outputFile with
      | none => rfl
      | some w1 => simp [writeCalls_append, render_writeCalls]

theorem RenderToFile_frame {σ V : Type} (parse : String → Except Error (Exec V))
    (r : SecretReader σ V) (templateFile outputFile : String) (s : Sys σ V) (p : String)
    (hp : p ≠ outputFile ∨ outputFile = "") :
    (RenderToFile parse r templateFile outputFile s).2.world.files p = s.world.files p := by
  unfold RenderToFile
  cases s.world.files templateFile with
  | none => rfl
  | some tf =>
    simp only []
    by_cases ho : outputFile = ""
    · rw [if_pos ho]
    · rw [if_neg ho]
      have hp2 : p ≠ outputFile := hp.resolve_right ho
      cases hc : osCreate s.world outputFile with
      | none => rfl
      | some w1 =>
        simp only []
        rw [(setContent_files _ outputFile _).1 p hp2, (fileChmod_files w1 outputFile _).1 p hp2,
          (osCreate_files s.world w1 outputFile hc).1 p hp2]

theorem createSecretReader_writeCalls {σ V C : Type} (env : Env σ V C) (options : Options) :
    writeCalls (createSecretReader env options).2 = [] := by
  unfold createSecretReader
  split
  · split <;> rfl
  · split <;> rfl

/-- C7: when `SecretsOutputFileName` is empty, `Run` makes no call of
`secrets.Write` and leaves every file other than the output file as it was,
whatever the render did; when it is non-empty and the render succeeded,
`secrets.Write` is called exactly once, with that path and the record of the
render, and `Run` returns what it returned. -/
theorem Run_secrets_write {σ V C : Type} [Inhabited V] (env : Env σ V C) (options : Options)
    (s : Sys σ V) :
    (options.SecretsOutputFileName = "" →
      writeCalls (Run env options s).2.events = writeCalls s.events ∧
      (∀ p, (p ≠ options.OutputFileName ∨ options.OutputFileName = "") →
        (Run env options s).2.world.files p = s.world.files p)) ∧
    (options.SecretsOutputFileName ≠ "" → ∀ rd rec s1,
      (createSecretReader env options).1 = .ok rd →
      RenderToFile env.parse (rd.toSecretReader env) options.TemplateFileName
          options.OutputFileName
          { s with events := s.events ++ (createSecretReader env options).2 }
        = (.ok rec, s1) →
      writeCalls (Run env options s).2.events
        = writeCalls s.events ++ [(options.SecretsOutputFileName, rec)] ∧
      (Run env options s).1
        = (env.secretsWrite options.SecretsOutputFileName rec s1.world).1 ∧
      (Run env options s).2.world
        = (env.secretsWrite options.SecretsOutputFileName rec s1.world).2) := by
  constructor
  · intro hempty
    unfold Run
    simp only []
    cases hc : (createSecretReader env options).1 with
    | error e =>
      refine ⟨?_, fun _ _ => rfl⟩
      show writeCalls (s.events ++ (createSecretReader env options).2) = _
      simp [writeCalls_append, createSecretReader_writeCalls]
    | ok rd =>
      simp only []
      have hw := RenderToFile_writeCalls env.parse (rd.toSecretReader env)
        options.TemplateFileName options.OutputFileName
        { s with events := s.events ++ (createSecretReader env options).2 }
      have hf := RenderToFile_frame env.parse (rd.toSecretReader env)
        options.TemplateFileName options.OutputFileName
        { s with events := s.events ++ (createSecretReader env options).2 }
      simp only [writeCalls_append, createSecretReader_writeCalls, List.append_nil] at hw
      cases hr : RenderToFile env.parse (rd.toSecretReader env) options.TemplateFileName
          options.OutputFileName
          { s with events := s.events ++ (createSecretReader env options).2 } with
      | mk res s1 =>
        rw [hr] at hw hf
        cases res with
        | error e => exact ⟨hw, hf⟩
        | ok rec =>
          simp only [hempty, if_true]
          exact ⟨hw, hf⟩
  · intro hne rd rec s1 hc hr
    have hw := RenderToFile_writeCalls env.parse (rd.toSecretReader env)
      options.TemplateFileName options.OutputFileName
      { s with events := s.events ++ (createSecretReader env options).2 }
    simp only [writeCalls_append, createSecretReader_writeCalls, List.append_nil] at hw
    rw [hr] at hw
    unfold Run
    simp only [hc, hr, hne, if_false, and_true]
    rw [writeCalls_append, hw]
    rfl

/-- The run of the example with and without a path for the record. -/
theorem Run_secrets_write_witness :
    ({ exampleOptions with SecretsOutputFileName := "" } : Options).SecretsOutputFileName = "" ∧
    writeCalls (Run exampleEnv
        { exampleOptions with SecretsOutputFileName := "" } (startIn exampleWorld)).2.events
      = writeCalls (startIn exampleWorld).events ∧
    exampleOptions.SecretsOutputFileName ≠ "" ∧
    writeCalls (Run exampleEnv exampleOptions
        (startIn exampleWorld)).2.events
      = writeCalls (startIn exampleWorld).events ++ [("secrets", aliceRecord)] :=
  ⟨rfl,
   ((Run_secrets_write exampleEnv
      { exampleOptions with SecretsOutputFileName := "" } (startIn exampleWorld)).1 rfl).1,
   by decide,
   ((Run_secrets_write exampleEnv exampleOptions
      (startIn exampleWorld)).2 (by decide) _ _ _ rfl rfl).1⟩

/-! ### The mode of the output file -/

/-- C8 fails on the code: `RenderToFile` drops the error of `file.Chmod(0600)`.
With an output file that the command may write but whose mode it may not change
(mode `0666`, owned by someone else), and on a file system that refuses every
change of mode (new file, mask `022`), the restriction fails, `RenderToFile`
still returns the record and no error, and the file with the rendered secret
keeps the mode `0666`, respectively `0644`. -/
theorem RenderToFile_chmod_dropped :
    (osCreate foreignFileWorld "out").map (fun w => (fileChmod w "out" 0o600).1)
      = some (some (.file "out")) ∧
    (RenderToFile (constParse (helloTemplate Secret.value)) aliceReader "tpl" "out"
      (startIn foreignFileWorld)).1 = .ok aliceRecord ∧
    (RenderToFile (constParse (helloTemplate Secret.value)) aliceReader "tpl" "out"
      (startIn foreignFileWorld)).2.world.files "out"
      = some { content := "Hello alice.", mode := 0o666 } ∧
    (RenderToFile (constParse (helloTemplate Secret.value)) aliceReader "tpl" "out"
      (startIn noChmodWorld)).1 = .ok aliceRecord ∧
    (RenderToFile (constParse (helloTemplate Secret.value)) aliceReader "tpl" "out"
      (startIn noChmodWorld)).2.world.files "out"
      = some { content := "Hello alice.", mode := 0o644 } ∧
    (0o666 : Nat) ≠ 0o600 ∧ (0o644 : Nat) ≠ 0o600 :=
  ⟨rfl, rfl, by decide, rfl, by decide, by decide, by decide⟩

/-- When the change of mode succeeds, the output file of a successful
`RenderToFile` has the mode `0600`, whatever the mask and the mode it had. -/
theorem RenderToFile_mode {σ V : Type} (parse : String → Except Error (Exec V))
    (r : SecretReader σ V) (templateFile outputFile : String) (s : Sys σ V) (rec : Secrets V)
    (ho : outputFile ≠ "") (hch : s.world.chmodable outputFile = true)
    (h : (RenderToFile parse r templateFile outputFile s).1 = .ok rec) :
    ∃ f, (RenderToFile parse r templateFile outputFile s).2.world.files outputFile = some f ∧
      f.mode = 0o600 := by
  unfold RenderToFile at h ⊢
  cases hf : s.world.files templateFile with
  | none => simp [hf] at h
  | some tf =>
    simp only [hf, if_neg ho] at h ⊢
    cases hc : osCreate s.world outputFile with
    | none => simp [hc] at h
    | some w1 =>
      simp only []
      obtain ⟨f1, hf1, _⟩ := (osCreate_files s.world w1 outputFile hc).2
      have hch1 : w1.chmodable outputFile = true := by
        unfold osCreate at hc
        split at hc
        · injection hc with hc
          subst hc
          exact hch
        · cases hc
      have h2 : (fileChmod w1 outputFile 0o600).2.files outputFile
          = some { f1 with mode := 0o600 } := by
        unfold fileChmod
        rw [if_pos hch1, hf1]
        exact mapSet_self _ _ _
      unfold setContent
      rw [h2]
      exact ⟨_, mapSet_self _ _ _, rfl⟩

/-! ### A lookup of a name that the static reader does not have -/

theorem RenderToFile_file_eq {σ V : Type} (parse : String → Except Error (Exec V))
    (r : SecretReader σ V) (templateFile outputFile : String) (s : Sys σ V) (tf : File)
    (w1 : World) (ho : outputFile ≠ "") (hf : s.world.files templateFile = some tf)
    (hc : osCreate s.world outputFile = some w1) :
    RenderToFile parse r templateFile outputFile s =
      ((render parse r tf.content
          { data := "", ok := (fileChmod w1 outputFile 0o600).2.writable outputFile }
          s.reader).result,
       { world := setContent (fileChmod w1 outputFile 0o600).2 outputFile
           (render parse r tf.content
             { data := "", ok := (fileChmod w1 outputFile 0o600).2.writable outputFile }
             s.reader).out.data,
         reader := (render parse r tf.content
             { data := "", ok := (fileChmod w1 outputFile 0o600).2.writable outputFile }
             s.reader).reader,
         events := s.events ++ (render parse r tf.content
             { data := "", ok := (fileChmod w1 outputFile 0o600).2.writable outputFile }
             s.reader).events }) := by
  unfold RenderToFile
  simp only [hf, if_neg ho, hc]

theorem RenderToFile_static_absent {σ V : Type} [Inhabited V]
    (parse : String → Except Error (Exec V)) (values : String → Option V)
    (templateFile outputFile : String) (s : Sys σ V) (n : String)
    (ho : outputFile ≠ "") (hv : values n = none) (hs : s.events = [])
    (hm : Event.lookup n
      ∈ (RenderToFile parse (NewMapReader values) templateFile outputFile s).2.events) :
    (RenderToFile parse (NewMapReader values) templateFile outputFile s).1
      = .error (.call "vault" (if n = "" then .missingName else .notFound n)) ∧
    ∃ f, (RenderToFile parse (NewMapReader values) templateFile outputFile s).2.world.files
        outputFile = some f ∧
      f.content
        = written (RenderToFile parse (NewMapReader values) templateFile outputFile s).2.events := by
  cases hf : s.world.files templateFile with
  | none =>
    exfalso
    unfold RenderToFile at hm
    simp [hf, hs] at hm
  | some tf =>
    cases hc : osCreate s.world outputFile with
    | none =>
      exfalso
      unfold RenderToFile at hm
      simp [hf, ho, hc, hs] at hm
    | some w1 =>
      rw [RenderToFile_file_eq parse _ templateFile outputFile s tf w1 ho hf hc] at hm ⊢
      simp only [hs, List.nil_append] at hm ⊢
      refine ⟨render_static_absent _ _ _ _ _ n hm hv, ?_⟩
      obtain ⟨f1, hf1, _⟩ := (osCreate_files s.world w1 outputFile hc).2
      obtain ⟨g, hg, _⟩ := (fileChmod_files w1 outputFile 0o600).2 f1 hf1
      obtain ⟨g2, hg2, hcont⟩ := (setContent_files (fileChmod w1 outputFile 0o600).2 outputFile
        (render parse (NewMapReader values) tf.content
          { data := "", ok := (fileChmod w1 outputFile 0o600).2.writable outputFile }
          s.reader).out.data).2 g hg
      refine ⟨g2, hg2, ?_⟩
      rw [hcont, render_out_data]
      simp

theorem createSecretReader_map_events {σ V C : Type} (env : Env σ V C) (options : Options)
    (values : String → Option V)
    (h : (createSecretReader env options).1 = .ok (.mapReader values)) :
    (createSecretReader env options).2 = [] := by
  unfold createSecretReader at h ⊢
  split
  · split <;> rfl
  · rename_i hlen
    rw [if_neg hlen] at h
    split at h
    · cases h
    · injection h with h
      cases h

/-- C3, as stated, fails: the one override is `user` with the JSON text of the
value `alice`, which decodes, so the reader is the static one; the template file
holds `password: <{ vault "missing" }>`; `Run` fails in the lookup of `missing`
and `secrets.Write` is not called, but the output file has been created (first
world) or overwritten (second world) before the render, and holds the text
rendered before the failing lookup. -/
theorem Run_absent_name_counterexample :
    (createSecretReader exampleEnv exampleOptions).1 = .ok (.mapReader aliceValues) ∧
    aliceValues "missing" = none ∧
    (missingWorld.files "tpl").map File.content
      = some "password: <\x7b vault \"missing\" \x7d>" ∧
    (Run exampleEnv exampleOptions (startIn missingWorld)).2.events
      = [Event.write "password: ", Event.lookup "missing",
         Event.get "missing" (.error (.notFound "missing"))] ∧
    (Run exampleEnv exampleOptions (startIn missingWorld)).1
      = some (.call "vault" (.notFound "missing")) ∧
    missingWorld.files "out" = none ∧
    (Run exampleEnv exampleOptions (startIn missingWorld)).2.world.files "out"
      = some { content := "password: ", mode := 0o600 } ∧
    worldWithOutput.files "out" = some { content := "old config", mode := 0o600 } ∧
    (Run exampleEnv exampleOptions (startIn worldWithOutput)).1
      = some (.call "vault" (.notFound "missing")) ∧
    (Run exampleEnv exampleOptions (startIn worldWithOutput)).2.world.files "out"
      = some { content := "password: ", mode := 0o600 } :=
  ⟨rfl, rfl, rfl, rfl, rfl, rfl, by decide, by decide, rfl, by decide⟩

/-- C3, amended: for every run of `Run` with a non-empty output-file path and
the static Secret Reader, started with no call made yet, if the template looks
up a name absent from the override set, then `Run` fails with the error of that
lookup, `secrets.Write` is not called and no file other than the output file
changes; the output file has been created or truncated before the render and
holds exactly the text rendered before the failing lookup. -/
theorem Run_absent_name {σ V C : Type} [Inhabited V] (env : Env σ V C) (options : Options)
    (s : Sys σ V) (values : String → Option V) (n : String)
    (hout : options.OutputFileName ≠ "")
    (hrd : (createSecretReader env options).1 = .ok (.mapReader values))
    (habs : values n = none) (hfresh : s.events = [])
    (hlook : Event.lookup n ∈ (Run env options s).2.events) :
    (Run env options s).1
      = some (.call "vault" (if n = "" then .missingName else .notFound n)) ∧
    writeCalls (Run env options s).2.events = [] ∧
    (∀ p, p ≠ options.OutputFileName →
      (Run env options s).2.world.files p = s.world.files p) ∧
    (∃ f, (Run env options s).2.world.files options.OutputFileName = some f ∧
      f.content = written (Run env options s).2.events) := by
  have hc2 := createSecretReader_map_events env options values hrd
  have hs0 : ({ s with events := s.events ++ (createSecretReader env options).2 } :
      Sys σ V).events = [] := by simp [hfresh, hc2]
  have hstat := RenderToFile_static_absent env.parse values options.TemplateFileName
    options.OutputFileName { s with events := s.events ++ (createSecretReader env options).2 }
    n hout habs hs0
  have hw := RenderToFile_writeCalls env.parse (NewMapReader values : SecretReader σ V)
    options.TemplateFileName options.OutputFileName
    { s with events := s.events ++ (createSecretReader env options).2 }
  have hf := RenderToFile_frame env.parse (NewMapReader values : SecretReader σ V)
    options.TemplateFileName options.OutputFileName
    { s with events := s.events ++ (createSecretReader env options).2 }
  rw [hs0] at hw
  unfold Run at hlook ⊢
  simp only [hrd, Reader.toSecretReader] at hlook ⊢
  generalize RenderToFile env.parse (NewMapReader values) options.TemplateFileName
    options.OutputFileName { s with events := s.events ++ (createSecretReader env options).2 }
    = X at hlook hstat hw hf ⊢
  obtain ⟨res, s1⟩ := X
  have hm : Event.lookup n ∈ s1.events := by
    cases res with
    | error e => exact hlook
    | ok rec =>
      simp only [] at hlook
      split at hlook
      · exact hlook
      · simpa using hlook
  obtain ⟨h1, h2⟩ := hstat hm
  simp only [] at h1
  subst h1
  exact ⟨rfl, hw, fun p hp => hf p (Or.inl hp), h2⟩

theorem example_lookup_mem :
    Event.lookup "missing"
      ∈ (Run exampleEnv exampleOptions (startIn missingWorld)).2.events := by
  have h : (Run exampleEnv exampleOptions (startIn missingWorld)).2.events
      = [Event.write "password: ", Event.lookup "missing",
         Event.get "missing" (.error (.notFound "missing"))] := rfl
  rw [h]
  simp

/-- The run of the example on the template file that looks up `missing`, with
the override of `user` given as JSON text. -/
theorem Run_absent_name_witness :
    exampleOptions.OutputFileName ≠ "" ∧
    (createSecretReader exampleEnv exampleOptions).1 = .ok (.mapReader aliceValues) ∧
    aliceValues "missing" = none ∧
    (startIn missingWorld).events = [] ∧
    Event.lookup "missing"
      ∈ (Run exampleEnv exampleOptions (startIn missingWorld)).2.events ∧
    (Run exampleEnv exampleOptions (startIn missingWorld)).1
      = some (.call "vault" (if "missing" = "" then .missingName else .notFound "missing")) ∧
    writeCalls (Run exampleEnv exampleOptions (startIn missingWorld)).2.events = [] ∧
    (∃ f, (Run exampleEnv exampleOptions
        (startIn missingWorld)).2.world.files exampleOptions.OutputFileName = some f ∧
      f.content = written (Run exampleEnv exampleOptions (startIn missingWorld)).2.events) :=
  ⟨by decide, rfl, rfl, rfl, example_lookup_mem,
   (Run_absent_name exampleEnv exampleOptions (startIn missingWorld)
      aliceValues "missing" (by decide) rfl rfl rfl example_lookup_mem).1,
   (Run_absent_name exampleEnv exampleOptions (startIn missingWorld)
      aliceValues "missing" (by decide) rfl rfl rfl example_lookup_mem).2.1,
   (Run_absent_name exampleEnv exampleOptions (startIn missingWorld)
      aliceValues "missing" (by decide) rfl rfl rfl example_lookup_mem).2.2.2⟩

end Vaultify
